import Mathlib

/-!
Verification of the column-detection / normalization / aggregation pipeline of
the Mansoorah Hospital Patient Influx Analysis application (`app.py`).

The embedding models:
  * `detect_columns`   (app.py lines 25-47)   — heuristic column matcher;
  * `standardize_quarter` and the surrounding quarter pipeline
    (app.py lines 119-147)                     — quarter canonicalization;
  * `preprocess_data`  (app.py lines 101-164)  — value normalizer, restricted
    to the row pipeline that runs once all four logical columns are mapped;
  * `chart_data`       (app.py lines 230-244)  — per-department aggregation.

Modelling conventions: cell values are the strings pandas would render for
them; numeric patient counts are modelled as integers (`pd.to_numeric` on the
claims' inputs only meets integer literals); Python `str.upper`/`str.lower`
are modelled on the ASCII range, which is the range the matcher's tokens and
the quarter labels live in.  `pandas.groupby` with `observed=False` over the
categorical Quarter column produces, for every Year value present in the
filtered frame, a group for each of the four quarter categories (an empty
group sums to 0); `chart_data` reproduces exactly that.
-/

/-- ASCII upper-casing of one character, modelling Python `str.upper`
(identical to core `Char.toUpper` on every input). -/
def upChar (c : Char) : Char :=
  if h : 97 ≤ c.toNat ∧ c.toNat ≤ 122 then
    Char.ofNatAux (c.toNat - 32) (Or.inl (by omega))
  else c

/-- ASCII lower-casing of one character, modelling Python `str.lower`. -/
def downChar (c : Char) : Char :=
  if h : 65 ≤ c.toNat ∧ c.toNat ≤ 90 then
    Char.ofNatAux (c.toNat + 32) (Or.inl (by omega))
  else c

/-- Python's default `str.strip` character class: space, tab, LF, CR. -/
def isWS (c : Char) : Bool :=
  c.toNat = 32 || c.toNat = 9 || c.toNat = 10 || c.toNat = 13

/-- Upper-case a string character by character (`.str.upper()` / `.upper()`). -/
def upStr (s : String) : String := ⟨s.data.map upChar⟩

/-- Lower-case a string character by character (`.lower()`). -/
def lowStr (s : String) : String := ⟨s.data.map downChar⟩

/-- Drop leading and trailing whitespace of a character list. -/
def stripL (l : List Char) : List Char :=
  ((l.dropWhile isWS).reverse.dropWhile isWS).reverse

/-- Python `str.strip()`: drop leading and trailing whitespace. -/
def stripWS (s : String) : String := ⟨stripL s.data⟩

/-- Remove every occurrence of one character (`str.replace(c, '')`). -/
def removeCh (a : Char) (s : String) : String :=
  ⟨s.data.filter (fun c => c != a)⟩

/-- Replace every occurrence of one character by another
(`str.replace(a, b)` for single characters). -/
def replCh (a b : Char) (s : String) : String :=
  ⟨s.data.map (fun c => if c = a then b else c)⟩

/-- The character list of the literal `"QUARTER"`. -/
def qtrChars : List Char := ['Q', 'U', 'A', 'R', 'T', 'E', 'R']

/-- Fueled worker for `str.replace('QUARTER', 'Q')`: left-to-right,
non-overlapping replacement.  The fuel is an upper bound on the number of
characters still to scan, so `fuel = l.length` computes the replacement. -/
def replaceQtrAux : Nat → List Char → List Char
  | 0, l => l
  | _ + 1, [] => []
  | fuel + 1, c :: rest =>
    if qtrChars.isPrefixOf (c :: rest) then
      'Q' :: replaceQtrAux fuel (rest.drop 6)
    else
      c :: replaceQtrAux fuel rest

/-- Python `s.replace('QUARTER', 'Q')` (app.py line 123). -/
def replaceQuarterQ (s : String) : String :=
  ⟨replaceQtrAux s.data.length s.data⟩

/-- Does the string have the shape `Q<digits>`?  Models
`q.startswith('Q') and q[1:].isdigit()` (app.py line 137); Python's
`isdigit` is false on the empty string. -/
def isQnum (q : String) : Bool :=
  match q.data with
  | 'Q' :: rest => !rest.isEmpty && rest.all (fun c => c.isDigit)
  | _ => false

/-- The inner `standardize_quarter` function (app.py lines 127-140):
`q = str(q).strip().upper()`, then the explicit token table, then the
`Q<digits>` pass-through, then the catch-all pass-through. -/
def standardize_quarter (q : String) : String :=
  let q := upStr (stripWS q)
  if q = "1" ∨ q = "1ST" ∨ q = "FIRST" then "Q1"
  else if q = "2" ∨ q = "2ND" ∨ q = "SECOND" then "Q2"
  else if q = "3" ∨ q = "3RD" ∨ q = "THIRD" then "Q3"
  else if q = "4" ∨ q = "4TH" ∨ q = "FOURTH" then "Q4"
  else if isQnum q then q
  else q

/-- The full quarter pipeline applied to one cell (app.py lines 121-142):
`.astype(str).str.upper()`, then `.str.replace('QUARTER','Q')`, then
`.str.replace(' ','')`, then `standardize_quarter`. -/
def quarterNormalize (s : String) : String :=
  standardize_quarter (removeCh ' ' (replaceQuarterQ (upStr s)))

/-- The canonical quarter labels (app.py line 145). -/
def validQuarters : List String := ["Q1", "Q2", "Q3", "Q4"]

/-- Column-name normalization used by the matcher (app.py line 42):
`col.lower().replace(' ','_').replace('.','_').replace('-','_')`. -/
def normalizeCol (c : String) : String :=
  replCh '-' '_' (replCh '.' '_' (replCh ' ' '_' (lowStr c)))

/-- Worker for the substring test: does `t` occur in `l`? -/
def substrAux (t : List Char) : List Char → Bool
  | [] => t.isEmpty
  | c :: rest => t.isPrefixOf (c :: rest) || substrAux t rest

/-- Python's `term in col_clean` substring test. -/
def substrB (t s : String) : Bool := substrAux t.data s.data

/-- The candidate-token table of `detect_columns` (app.py lines 32-37), in its
fixed iteration order. -/
def patterns : List (String × List String) :=
  [("Year", ["year", "yr", "years", "date_year", "time_year"]),
   ("Quarter", ["quarter", "qtr", "q", "quarters", "period"]),
   ("Department",
    ["department", "dept", "dep", "ward", "unit", "division", "section"]),
   ("No. of Patients",
    ["patients", "patient", "count", "number", "total", "num_patients",
     "patient_count", "no_of_patients", "patient_total"])]

/-- Does a raw column name match a field's token list
(`any(term in col_clean for term in search_terms)`, app.py line 43)? -/
def matchesField (terms : List String) (col : String) : Bool :=
  terms.any (fun t => substrB t (normalizeCol col))

/-- The column matcher `detect_columns` (app.py lines 25-47): for each logical
field in the fixed order, the first raw column whose normalized name contains
one of the field's tokens; unmatched fields are simply absent. -/
def detect_columns (cols : List String) : List (String × String) :=
  patterns.filterMap fun p =>
    (cols.find? (matchesField p.2)).map (fun c => (p.1, c))

/-- A raw table row after the four logical columns have been mapped and
renamed; every cell is the string pandas renders for it. -/
structure RawRow where
  year : String
  quarter : String
  dept : String
  count : String
deriving DecidableEq

/-- A normalized row (the spec's NormalizedRow). -/
structure Row where
  year : String
  quarter : String
  dept : String
  count : Int
deriving DecidableEq

/-- Digit-string to number (used after sign splitting). -/
def natOfDigits (ds : List Char) : Nat :=
  ds.foldl (fun n c => 10 * n + (c.toNat - 48)) 0

/-- Integer parsing modelling `pd.to_numeric(..., errors='coerce')` on the
integer literals the claims are about: an optional sign followed by at least
one digit; anything else coerces to `NaN`, i.e. `none`. -/
def parseIntStr (s : String) : Option Int :=
  match s.data with
  | [] => none
  | '-' :: ds =>
    if !ds.isEmpty && ds.all (fun c => c.isDigit) then
      some (-(natOfDigits ds : Int))
    else none
  | '+' :: ds =>
    if !ds.isEmpty && ds.all (fun c => c.isDigit) then
      some ((natOfDigits ds : Int))
    else none
  | ds =>
    if ds.all (fun c => c.isDigit) then some ((natOfDigits ds : Int))
    else none

/-- Patient-count coercion (app.py lines 107-109): strip commas, strip
spaces, then parse; a failed parse is the `NaN` later removed by `dropna`. -/
def parseCount (s : String) : Option Int :=
  parseIntStr (removeCh ' ' (removeCh ',' s))

/-- The row pipeline of `preprocess_data` (app.py lines 101-164) once all four
logical columns are mapped: coerce `No. of Patients` and drop failures
(lines 107-113); abort with an error when nothing survives (lines 115-117);
standardize `Quarter` and keep only canonical labels (lines 119-147); turn
`Year` into a string (line 151, the cells are already their string
renderings here); strip `Department` (lines 154-155).  Note the code checks
for emptiness only after the count coercion, not after the quarter filter. -/
def preprocess_data (rows : List RawRow) : Option (List Row) :=
  let converted : List (RawRow × Int) :=
    rows.filterMap fun r => (parseCount r.count).map (fun n => (r, n))
  if converted.isEmpty then none
  else
    some (((converted.map fun rn =>
      ({ year := rn.1.year, quarter := quarterNormalize rn.1.quarter,
         dept := stripWS rn.1.dept, count := rn.2 } : Row)).filter
      (fun r => validQuarters.contains r.quarter)))

/-- Position of a quarter label in the canonical order `Q1 < Q2 < Q3 < Q4`. -/
def qIdx (q : String) : Nat :=
  if q = "Q1" then 0 else if q = "Q2" then 1
  else if q = "Q3" then 2 else if q = "Q4" then 3 else 4

/-- One entry of the aggregated series: (Year, Quarter, summed count). -/
abbrev Entry := String × String × Int

/-- The aggregation of app.py lines 230-244: filter the normalized rows to the
selected department, group by `(Year, Quarter)` and sum — with pandas
`observed=False` semantics over the categorical Quarter, i.e. every year
observed in the filtered rows contributes a group for each of the four
categories, an empty group summing to 0 — then sort by Year (string order)
and by Quarter's categorical order. -/
def chart_data (rows : List Row) (d : String) : List Entry :=
  let dr := rows.filter (fun r => r.dept == d)
  let years := List.insertionSort (· ≤ ·) ((dr.map Row.year).dedup)
  (years.map fun y => validQuarters.map fun q =>
    (y, q,
      ((dr.filter fun r => r.year == y && r.quarter == q).map Row.count).sum)).flatten

/-- Sum of the aggregated series' counts. -/
def sumEntries (l : List Entry) : Int := (l.map fun e => e.2.2).sum

/-- Sum of the patient counts of a list of normalized rows. -/
def sumCounts (l : List Row) : Int := (l.map Row.count).sum

/-- Strict "Year ascending (string order), then canonical quarter order"
comparison on entries of the aggregated series. -/
def entryLT (a b : Entry) : Prop :=
  a.1 < b.1 ∨ (a.1 = b.1 ∧ qIdx a.2.1 < qIdx b.2.1)

/-- Remove every whitespace character of a string (used by the claim-side
reading of "strips whitespace" in the quarter canonicalization claim). -/
def removeWS (s : String) : String := ⟨s.data.filter (fun c => !(isWS c))⟩

/-- The explicit quarter mapping table exactly as the quarter claim words it:
`{1,1ST,FIRST}` to `Q1`, ..., a `Q<digits>` token passes through, anything
else passes through. -/
def quarterTableClaim (t : String) : String :=
  if t = "1" ∨ t = "1ST" ∨ t = "FIRST" then "Q1"
  else if t = "2" ∨ t = "2ND" ∨ t = "SECOND" then "Q2"
  else if t = "3" ∨ t = "3RD" ∨ t = "THIRD" then "Q3"
  else if t = "4" ∨ t = "4TH" ∨ t = "FOURTH" then "Q4"
  else if isQnum t then t
  else t

/-- The quarter canonicalization exactly in the order the claim states it:
upper-case, strip whitespace, replace the literal word `QUARTER` with `Q`,
then apply the mapping table. -/
def quarterCanonClaimed (s : String) : String :=
  quarterTableClaim (replaceQuarterQ (removeWS (upStr s)))

/-- The amended quarter canonicalization: upper-case, replace the literal
word `QUARTER` with `Q`, remove spaces, strip remaining edge whitespace,
then apply the mapping table — the order the code actually uses. -/
def quarterCanonAmended (s : String) : String :=
  quarterTableClaim (stripWS (removeCh ' ' (replaceQuarterQ (upStr s))))

/-- C10: the Quarter field's candidate tokens include the single letter `q`,
so a table whose first column is `Frequency` (whose normalized name contains
`q`) gets `Frequency` assigned to Quarter even though a column literally
named `Quarter` appears later. -/
theorem C10_single_letter_q_token :
    patterns.lookup "Quarter" = some ["quarter", "qtr", "q", "quarters", "period"] ∧
    ("q" : String) ∈ ["quarter", "qtr", "q", "quarters", "period"] ∧
    detect_columns ["Frequency", "Quarter"] = [("Quarter", "Frequency")] := by
  decide

/-- C2 counterexample: the claim orders the steps as upper-case, strip
whitespace, then replace `QUARTER` by `Q`; the code replaces before it
removes spaces.  On the raw value `"QUART ER2"` the claimed order yields the
canonical `"Q2"` (row retained) while the code yields `"QUARTER2"` (row
excluded). -/
theorem C2_counterexample :
    quarterNormalize "QUART ER2" = "QUARTER2" ∧
    quarterCanonClaimed "QUART ER2" = "Q2" ∧
    quarterNormalize "QUART ER2" ∉ validQuarters ∧
    quarterCanonClaimed "QUART ER2" ∈ validQuarters := by
  decide

/-- C5 counterexample: the aggregation (pandas `groupby` with
`observed=False` over the categorical Quarter) synthesizes a zero-valued
entry for the unobserved pair `("2021", "Q2")`, so the aggregated series
does not contain only observed (Year, Quarter) pairs. -/
theorem C5_counterexample :
    ("2021", "Q2", (0 : Int)) ∈ chart_data [⟨"2021", "Q1", "ER", 100⟩] "ER" ∧
    ¬ ∃ r ∈ ([⟨"2021", "Q1", "ER", 100⟩] : List Row),
        r.year = "2021" ∧ r.quarter = "Q2" := by
  decide

/-- C6 counterexample: when every row survives the count coercion but is then
dropped by the quarter-validity filter, `preprocess_data` does not fail — it
returns an empty dataset (the emptiness check sits only after the count
coercion). -/
theorem C6_counterexample :
    preprocess_data [⟨"2020", "SOMEDAY", "ER", "5"⟩] = some [] ∧
    preprocess_data [⟨"2020", "SOMEDAY", "ER", "5"⟩] ≠ none := by
  decide

/-- C7 counterexample: a PatientCount cell `"-5"` parses successfully, so the
row is retained with the negative count `-5`; the code never enforces
non-negativity. -/
theorem C7_counterexample :
    preprocess_data [⟨"2020", "Q1", "ER", "-5"⟩] =
      some [⟨"2020", "Q1", "ER", -5⟩] ∧
    (⟨"2020", "Q1", "ER", -5⟩ : Row).count < 0 := by
  decide

/-- C9: a PatientCount cell holding `"1,234"` has its comma and spaces
stripped before parsing, so the normalized row carries the number 1234
(whenever the row's quarter passes the validity filter at all). -/
theorem C9_thousands_separator (y q d : String)
    (h : quarterNormalize q ∈ validQuarters) :
    preprocess_data [⟨y, q, d, "1,234"⟩] =
      some [⟨y, quarterNormalize q, stripWS d, 1234⟩] := by
  have hp : parseCount "1,234" = some 1234 := by decide
  have hc : validQuarters.contains (quarterNormalize q) = true :=
    List.elem_iff.mpr h
  simp [preprocess_data, hp, hc, List.filterMap_cons, h]

/-- C9 witness: the concrete table row (2020, Q1, ER, "1,234") normalizes to
the numeric count 1234. -/
theorem C9_thousands_separator_witness :
    preprocess_data [⟨"2020", "Q1", "ER", "1,234"⟩] =
      some [⟨"2020", "Q1", "ER", 1234⟩] :=
  C9_thousands_separator "2020" "Q1" "ER" (by decide)

/-- Helper: the matched-field keys of a filterMap over a pattern table form a
sublist of the table's keys. -/
theorem filterMap_fst_sublist {A B C : Type} (ps : List (A × B))
    (g : A × B → Option C) :
    List.Sublist ((ps.filterMap fun p => (g p).map fun c => (p.1, c)).map Prod.fst)
      (ps.map Prod.fst) := by
  induction ps with
  | nil => simp
  | cons p ps ih =>
    cases hg : g p with
    | none => simpa [List.filterMap_cons, hg] using ih.cons p.1
    | some c => simpa [List.filterMap_cons, hg] using ih.cons₂ p.1

/-- C1: the column matcher assigns every logical field, independently of the
others, the first raw column (in original order) whose normalized name
(lower-cased, with spaces, dots and hyphens turned into underscores)
contains one of the field's candidate tokens; fields with no matching column
are absent from the mapping, and the mapping's keys follow the fixed field
order Year, Quarter, Department, PatientCount. -/
theorem C1_column_matcher (cols : List String) :
    List.Sublist ((detect_columns cols).map Prod.fst)
      ["Year", "Quarter", "Department", "No. of Patients"] ∧
    (detect_columns cols).lookup "Year" =
      cols.find? (matchesField ["year", "yr", "years", "date_year", "time_year"]) ∧
    (detect_columns cols).lookup "Quarter" =
      cols.find? (matchesField ["quarter", "qtr", "q", "quarters", "period"]) ∧
    (detect_columns cols).lookup "Department" =
      cols.find? (matchesField
        ["department", "dept", "dep", "ward", "unit", "division", "section"]) ∧
    (detect_columns cols).lookup "No. of Patients" =
      cols.find? (matchesField
        ["patients", "patient", "count", "number", "total", "num_patients",
         "patient_count", "no_of_patients", "patient_total"]) := by
  have hs : List.Sublist ((detect_columns cols).map Prod.fst)
      ["Year", "Quarter", "Department", "No. of Patients"] := by
    simpa [detect_columns, patterns] using
      filterMap_fst_sublist patterns (fun p => cols.find? (matchesField p.2))
  refine ⟨hs, ?_, ?_, ?_, ?_⟩ <;>
  · cases h1 : cols.find? (matchesField
        ["year", "yr", "years", "date_year", "time_year"]) <;>
    cases h2 : cols.find? (matchesField
        ["quarter", "qtr", "q", "quarters", "period"]) <;>
    cases h3 : cols.find? (matchesField
        ["department", "dept", "dep", "ward", "unit", "division", "section"]) <;>
    cases h4 : cols.find? (matchesField
        ["patients", "patient", "count", "number", "total", "num_patients",
         "patient_count", "no_of_patients", "patient_total"]) <;>
    simp [detect_columns, patterns, List.filterMap_cons, List.lookup,
      h1, h2, h3, h4]

/-- C6 amended: normalization reports an error (returns no dataset) exactly
when zero rows survive the PatientCount coercion; rows removed later by the
quarter-validity filter never trigger the error, even when none remain. -/
theorem C6_empty_failure (rows : List RawRow) :
    preprocess_data rows = none ↔ ∀ r ∈ rows, parseCount r.count = none := by
  unfold preprocess_data
  by_cases h :
      (rows.filterMap fun r => (parseCount r.count).map fun n => (r, n)).isEmpty
  · simp only [h, if_true, true_iff]
    rw [List.isEmpty_iff, List.filterMap_eq_nil_iff] at h
    intro r hr
    have := h r hr
    simpa using this
  · simp only [h, if_false]
    constructor
    · intro hc
      exact absurd hc (by simp)
    · intro hall
      exfalso
      apply h
      rw [List.isEmpty_iff, List.filterMap_eq_nil_iff]
      intro r hr
      simp [hall r hr]

/-- C6 witness: a table whose single count cell is unparsable makes the
normalization fail. -/
theorem C6_empty_failure_witness :
    preprocess_data [⟨"2020", "Q1", "ER", "abc"⟩] = none :=
  (C6_empty_failure [⟨"2020", "Q1", "ER", "abc"⟩]).mpr (by decide)

/-- C7 amended: every retained row carries a count obtained by successfully
parsing some input row's count cell (rows whose cell fails to parse are
dropped, never defaulted), together with that row's normalized fields; the
count may be negative, since the code checks no sign. -/
theorem C7_retained_rows (rows : List RawRow) (out : List Row)
    (h : preprocess_data rows = some out) :
    ∀ r ∈ out, r.quarter ∈ validQuarters ∧
      ∃ raw ∈ rows, parseCount raw.count = some r.count ∧
        r.year = raw.year ∧ r.quarter = quarterNormalize raw.quarter ∧
        r.dept = stripWS raw.dept := by
  unfold preprocess_data at h
  by_cases he :
      (rows.filterMap fun r => (parseCount r.count).map fun n => (r, n)).isEmpty
  · simp [he] at h
  · rw [if_neg he] at h
    injection h with h
    subst h
    intro r hr
    rw [List.mem_filter] at hr
    obtain ⟨hmem, hq⟩ := hr
    rw [List.mem_map] at hmem
    obtain ⟨⟨raw, n⟩, hrn, hr⟩ := hmem
    rw [List.mem_filterMap] at hrn
    obtain ⟨raw', hraw', hopt⟩ := hrn
    rw [Option.map_eq_some'] at hopt
    obtain ⟨n', hn', heq⟩ := hopt
    cases heq
    subst hr
    exact ⟨by simpa [List.elem_iff] using hq, raw, hraw', hn', rfl, rfl, rfl⟩

/-- C7 witness: the retained row (2020, Q1, ER, 7) originates from the raw
row whose count cell "7" parsed successfully. -/
theorem C7_retained_rows_witness :
    (⟨"2020", "Q1", "ER", (7 : Int)⟩ : Row).quarter ∈ validQuarters ∧
      ∃ raw ∈ ([⟨"2020", "Q1", "ER", "7"⟩] : List RawRow),
        parseCount raw.count = some (⟨"2020", "Q1", "ER", (7 : Int)⟩ : Row).count ∧
        (⟨"2020", "Q1", "ER", (7 : Int)⟩ : Row).year = raw.year ∧
        (⟨"2020", "Q1", "ER", (7 : Int)⟩ : Row).quarter = quarterNormalize raw.quarter ∧
        (⟨"2020", "Q1", "ER", (7 : Int)⟩ : Row).dept = stripWS raw.dept :=
  C7_retained_rows [⟨"2020", "Q1", "ER", "7"⟩] [⟨"2020", "Q1", "ER", 7⟩]
    (by decide) ⟨"2020", "Q1", "ER", 7⟩ (by decide)

/-- Helper: sums distribute over pointwise addition of mapped functions. -/
theorem sum_map_add {K : Type} (ks : List K) (f g : K → Int) :
    (ks.map fun k => f k + g k).sum = (ks.map f).sum + (ks.map g).sum := by
  induction ks with
  | nil => simp
  | cons k ks ih => simp [ih]; ring

/-- Helper: summing an indicator over a duplicate-free list containing the
key yields the indicated value. -/
theorem sum_ite_single {K : Type} [DecidableEq K] (a : K) (c : Int)
    (ks : List K) (hnd : ks.Nodup) (hm : a ∈ ks) :
    (ks.map fun k => if a = k then c else 0).sum = c := by
  induction ks with
  | nil => cases hm
  | cons k ks ih =>
    rw [List.nodup_cons] at hnd
    rcases List.mem_cons.mp hm with h | h
    · subst h
      have hz : (ks.map fun x => if a = x then c else 0).sum = 0 := by
        apply List.sum_eq_zero
        intro x hx
        rw [List.mem_map] at hx
        obtain ⟨k, hk, rfl⟩ := hx
        rw [if_neg]
        intro hak
        exact hnd.1 (hak ▸ hk)
      simp [hz]
    · have hne : a ≠ k := fun he => hnd.1 (he ▸ h)
      simp [hne, ih hnd.2 h]

/-- Helper: grouping a row list by a key ranging over a duplicate-free
covering list and summing the groups loses no count. -/
theorem sum_partition {K : Type} [DecidableEq K] (key : Row → K)
    (l : List Row) (ks : List K) (hnd : ks.Nodup)
    (hcov : ∀ r ∈ l, key r ∈ ks) :
    (ks.map fun k => sumCounts (l.filter fun r => decide (key r = k))).sum =
      sumCounts l := by
  induction l with
  | nil =>
    have : (ks.map fun k =>
        sumCounts (List.filter (fun r => decide (key r = k)) [])).sum = 0 := by
      apply List.sum_eq_zero
      intro x hx
      rw [List.mem_map] at hx
      obtain ⟨k, hk, rfl⟩ := hx
      simp [sumCounts]
    rw [this]
    simp [sumCounts]
  | cons r l ih =>
    have step : ∀ k, sumCounts ((r :: l).filter fun x => decide (key x = k)) =
        (if key r = k then r.count else 0) +
          sumCounts (l.filter fun x => decide (key x = k)) := by
      intro k
      by_cases hk : key r = k
      · simp [List.filter_cons, hk, sumCounts]
      · simp [List.filter_cons, hk, sumCounts]
    rw [List.map_congr_left fun k _ => step k, sum_map_add,
      sum_ite_single (key r) r.count ks hnd (hcov r (by simp)),
      ih fun x hx => hcov x (by simp [hx])]
    simp [sumCounts]

/-- Helper: every row of a successful normalization carries a canonical
quarter label (the quarter-validity filter guarantees it). -/
theorem preprocess_quarters_valid (raws : List RawRow) (rows : List Row)
    (h : preprocess_data raws = some rows) :
    ∀ r ∈ rows, r.quarter ∈ validQuarters := by
  unfold preprocess_data at h
  by_cases he :
      (raws.filterMap fun r => (parseCount r.count).map fun n => (r, n)).isEmpty
  · simp [he] at h
  · rw [if_neg he] at h
    injection h with h
    subst h
    intro r hr
    rw [List.mem_filter] at hr
    simpa [List.elem_iff] using hr.2

/-- Helper: the aggregated series preserves the department's total count as
long as every row carries a canonical quarter label. -/
theorem chart_sum (rows : List Row) (d : String)
    (hq : ∀ r ∈ rows, r.quarter ∈ validQuarters) :
    sumEntries (chart_data rows d) =
      sumCounts (rows.filter fun r => r.dept == d) := by
  have hform : chart_data rows d =
      ((List.insertionSort (· ≤ ·)
          (((rows.filter fun r => r.dept == d).map Row.year).dedup)).map
        fun y => validQuarters.map fun q =>
          (y, q, (((rows.filter fun r => r.dept == d).filter
            fun r => r.year == y && r.quarter == q).map Row.count).sum)).flatten :=
    rfl
  rw [sumEntries, hform, List.map_flatten, List.sum_flatten]
  simp only [List.map_map, Function.comp_def]
  have hqdr : ∀ r ∈ rows.filter (fun r => r.dept == d),
      r.quarter ∈ validQuarters := fun r hr => hq r (List.mem_of_mem_filter hr)
  have hydr : ∀ r ∈ rows.filter (fun r => r.dept == d),
      r.year ∈ List.insertionSort (· ≤ ·)
        (((rows.filter fun r => r.dept == d).map Row.year).dedup) := by
    intro r hr
    rw [List.mem_insertionSort, List.mem_dedup]
    exact List.mem_map_of_mem Row.year hr
  have hnd : (List.insertionSort (· ≤ ·)
      (((rows.filter fun r => r.dept == d).map Row.year).dedup)).Nodup :=
    (List.perm_insertionSort _ _).symm.nodup (List.nodup_dedup _)
  have inner : ∀ y, (validQuarters.map fun q =>
      ((List.filter (fun r => r.year == y && r.quarter == q)
        (List.filter (fun r => r.dept == d) rows)).map Row.count).sum).sum =
      sumCounts ((rows.filter fun r => r.dept == d).filter
        fun r => decide (r.year = y)) := by
    intro y
    have hfilter : ∀ q : String,
        (List.filter (fun r => r.year == y && r.quarter == q)
          (List.filter (fun r => r.dept == d) rows)) =
        List.filter (fun r => decide (r.quarter = q))
          (List.filter (fun r => decide (r.year = y))
            (List.filter (fun r => r.dept == d) rows)) := by
      intro q
      simp only [List.filter_filter]
      apply List.filter_congr
      intro r _
      rw [Bool.eq_iff_iff]
      simp only [Bool.and_eq_true, beq_iff_eq, decide_eq_true_eq]
      tauto
    have hmaps : (validQuarters.map fun q =>
        ((List.filter (fun r => r.year == y && r.quarter == q)
          (List.filter (fun r => r.dept == d) rows)).map Row.count).sum) =
        validQuarters.map fun q => sumCounts
          (List.filter (fun r => decide (r.quarter = q))
            (List.filter (fun r => decide (r.year = y))
              (List.filter (fun r => r.dept == d) rows))) := by
      apply List.map_congr_left
      intro q _
      rw [hfilter q]
      rfl
    rw [hmaps]
    exact sum_partition Row.quarter _ validQuarters (by decide)
      (fun r hr => hqdr r (List.mem_of_mem_filter hr))
  rw [List.map_congr_left fun y _ => inner y]
  exact sum_partition Row.year (rows.filter fun r => r.dept == d) _ hnd hydr

/-- C3: for a normalized dataset and a selected department, the sum of the
aggregated series' counts equals the sum of the department's rows' counts —
grouping by (Year, Quarter) and summing loses no rows. -/
theorem C3_aggregation_sum (raws : List RawRow) (rows : List Row) (d : String)
    (h : preprocess_data raws = some rows) :
    sumEntries (chart_data rows d) =
      sumCounts (rows.filter fun r => r.dept == d) :=
  chart_sum rows d (preprocess_quarters_valid raws rows h)

/-- C3 witness: on a concrete normalized two-row table the aggregation
preserves the ER department's total. -/
theorem C3_aggregation_sum_witness :
    sumEntries (chart_data [⟨"2021", "Q1", "ER", 100⟩, ⟨"2021", "Q3", "ER", 7⟩]
        "ER") =
      sumCounts (([⟨"2021", "Q1", "ER", 100⟩, ⟨"2021", "Q3", "ER", 7⟩] :
        List Row).filter fun r => r.dept == "ER") :=
  C3_aggregation_sum [⟨"2021", "Q1", "ER", "100"⟩, ⟨"2021", "Q3", "ER", "7"⟩]
    [⟨"2021", "Q1", "ER", 100⟩, ⟨"2021", "Q3", "ER", 7⟩] "ER" (by decide)

/-- C4: for any normalized rows, any department and any input row order, the
aggregated series is sorted strictly by Year ascending (string order) and,
within one year, by the canonical quarter order Q1 < Q2 < Q3 < Q4. -/
theorem C4_sorted (rows : List Row) (d : String) :
    List.Pairwise entryLT (chart_data rows d) := by
  have hform : chart_data rows d =
      ((List.insertionSort (· ≤ ·)
          (((rows.filter fun r => r.dept == d).map Row.year).dedup)).map
        fun y => validQuarters.map fun q =>
          (y, q, (((rows.filter fun r => r.dept == d).filter
            fun r => r.year == y && r.quarter == q).map Row.count).sum)).flatten :=
    rfl
  rw [hform, List.pairwise_flatten]
  constructor
  · intro l hl
    rw [List.mem_map] at hl
    obtain ⟨y, _, rfl⟩ := hl
    rw [List.pairwise_map]
    have base : List.Pairwise (fun q1 q2 => qIdx q1 < qIdx q2) validQuarters := by
      decide
    exact base.imp fun h => Or.inr ⟨rfl, h⟩
  · rw [List.pairwise_map]
    have hso : List.Sorted (· ≤ ·) (List.insertionSort (· ≤ ·)
        (((rows.filter fun r => r.dept == d).map Row.year).dedup)) :=
      List.sorted_insertionSort _ _
    have hnd : (List.insertionSort (· ≤ ·)
        (((rows.filter fun r => r.dept == d).map Row.year).dedup)).Nodup :=
      (List.perm_insertionSort _ _).symm.nodup (List.nodup_dedup _)
    have hlt : List.Pairwise (fun y1 y2 : String => y1 < y2)
        (List.insertionSort (· ≤ ·)
          (((rows.filter fun r => r.dept == d).map Row.year).dedup)) :=
      hso.lt_of_le hnd
    refine hlt.imp ?_
    intro y1 y2 h
    intro x hx z hz
    rw [List.mem_map] at hx hz
    obtain ⟨q1, _, rfl⟩ := hx
    obtain ⟨q2, _, rfl⟩ := hz
    exact Or.inl h

/-- C5 amended: the aggregated series contains an entry for (y, q) exactly
when some row of the selected department has year y and q is any of the four
canonical quarters — pandas `observed=False` already synthesizes all four
quarter groups per observed year — and an entry whose (Year, Quarter) pair
is matched by no department row carries the value 0.  The pivoted display
table's `fillna(0)` is therefore not the only zero-filling layer. -/
theorem C5_zero_fill_in_series (rows : List Row) (d y q : String) :
    ((∃ c, (y, q, c) ∈ chart_data rows d) ↔
      q ∈ validQuarters ∧ ∃ r ∈ rows, r.dept = d ∧ r.year = y) ∧
    ∀ c, (y, q, c) ∈ chart_data rows d →
      (∀ r ∈ rows, ¬(r.dept = d ∧ r.year = y ∧ r.quarter = q)) → c = 0 := by
  have hform : chart_data rows d =
      ((List.insertionSort (· ≤ ·)
          (((rows.filter fun r => r.dept == d).map Row.year).dedup)).map
        fun y => validQuarters.map fun q =>
          (y, q, (((rows.filter fun r => r.dept == d).filter
            fun r => r.year == y && r.quarter == q).map Row.count).sum)).flatten :=
    rfl
  constructor
  · constructor
    · rintro ⟨c, hc⟩
      rw [hform, List.mem_flatten] at hc
      obtain ⟨l, hl, hcl⟩ := hc
      rw [List.mem_map] at hl
      obtain ⟨y', hy', rfl⟩ := hl
      rw [List.mem_map] at hcl
      obtain ⟨q', hq', heq⟩ := hcl
      rw [Prod.ext_iff, Prod.ext_iff] at heq
      obtain ⟨hy1, hq1, -⟩ := heq
      subst hy1
      subst hq1
      refine ⟨hq', ?_⟩
      rw [List.mem_insertionSort, List.mem_dedup, List.mem_map] at hy'
      obtain ⟨r, hr, hyr⟩ := hy'
      rw [List.mem_filter] at hr
      exact ⟨r, hr.1, by simpa using hr.2, hyr⟩
    · rintro ⟨hqv, r, hr, hdept, hyear⟩
      refine ⟨(((rows.filter fun r => r.dept == d).filter
          fun s => s.year == y && s.quarter == q).map Row.count).sum, ?_⟩
      rw [hform, List.mem_flatten]
      refine ⟨validQuarters.map fun p =>
        (y, p, (((rows.filter fun r => r.dept == d).filter
          fun s => s.year == y && s.quarter == p).map Row.count).sum), ?_, ?_⟩
      · rw [List.mem_map]
        refine ⟨y, ?_, rfl⟩
        rw [List.mem_insertionSort, List.mem_dedup, List.mem_map]
        exact ⟨r, List.mem_filter.mpr ⟨hr, by simpa using hdept⟩, hyear⟩
      · rw [List.mem_map]
        exact ⟨q, hqv, rfl⟩
  · intro c hc hnone
    rw [hform, List.mem_flatten] at hc
    obtain ⟨l, hl, hcl⟩ := hc
    rw [List.mem_map] at hl
    obtain ⟨y', hy', rfl⟩ := hl
    rw [List.mem_map] at hcl
    obtain ⟨q', hq', heq⟩ := hcl
    injection heq with hy1 heq2
    injection heq2 with hq1 hc1
    subst hy1
    subst hq1
    rw [← hc1]
    have hempty : ((rows.filter fun r => r.dept == d).filter
        fun s => s.year == y' && s.quarter == q') = [] := by
      rw [List.filter_eq_nil_iff]
      intro r hr
      rw [List.mem_filter] at hr
      intro hpred
      rw [Bool.and_eq_true, beq_iff_eq, beq_iff_eq] at hpred
      exact hnone r hr.1 ⟨by simpa using hr.2, hpred.1, hpred.2⟩
    rw [hempty]
    rfl

/-- C5 witness: the unobserved pair (2021, Q2) nevertheless has an entry in
the aggregated series of a one-row table. -/
theorem C5_zero_fill_in_series_witness :
    ∃ c, ("2021", "Q2", c) ∈ chart_data [⟨"2021", "Q1", "ER", 100⟩] "ER" :=
  (C5_zero_fill_in_series [⟨"2021", "Q1", "ER", 100⟩] "ER" "2021" "Q2").1.mpr
    (by decide)

/-- Helper: code-point arithmetic of the ASCII upper-casing. -/
theorem upChar_toNat (c : Char) :
    (upChar c).toNat =
      if 97 ≤ c.toNat ∧ c.toNat ≤ 122 then c.toNat - 32 else c.toNat := by
  unfold upChar
  split
  · simp [Char.ofNatAux, Char.toNat, UInt32.toNat]
  · rfl

/-- Helper: characters outside the lower-case ASCII range are fixed. -/
theorem upChar_eq_self {c : Char} (h : ¬(97 ≤ c.toNat ∧ c.toNat ≤ 122)) :
    upChar c = c := by
  unfold upChar
  exact dif_neg h

/-- Helper: upper-casing one character is idempotent. -/
theorem upChar_idem (c : Char) : upChar (upChar c) = upChar c := by
  by_cases h : 97 ≤ c.toNat ∧ c.toNat ≤ 122
  · apply upChar_eq_self
    rw [upChar_toNat, if_pos h]
    omega
  · rw [upChar_eq_self h]
    exact upChar_eq_self h

/-- Helper: upper-casing does not change whether a character is whitespace. -/
theorem isWS_upChar (c : Char) : isWS (upChar c) = isWS c := by
  rw [Bool.eq_iff_iff]
  unfold isWS
  simp only [Bool.or_eq_true, decide_eq_true_eq, upChar_toNat]
  split <;> omega

/-- Helper: mapping the upper-casing over a list of fixed characters is the
identity. -/
theorem map_upChar_fixed {l : List Char} (h : ∀ c ∈ l, upChar c = c) :
    l.map upChar = l := by
  induction l with
  | nil => rfl
  | cons a l ih =>
    rw [List.map_cons, h a (by simp), ih fun c hc => h c (by simp [hc])]

/-- Helper: the characters produced by the QUARTER-to-Q replacement are fixed
under upper-casing whenever the input's characters are. -/
theorem replaceQtrAux_fixed :
    ∀ fuel (l : List Char), (∀ c ∈ l, upChar c = c) →
      ∀ c ∈ replaceQtrAux fuel l, upChar c = c := by
  intro fuel
  induction fuel with
  | zero => intro l h c hc; exact h c hc
  | succ fuel ih =>
    intro l h c hc
    cases l with
    | nil => cases hc
    | cons a rest =>
      rw [replaceQtrAux] at hc
      split at hc
      · rcases List.mem_cons.mp hc with rfl | hc
        · decide
        · exact ih (rest.drop 6)
            (fun x hx => h x (List.mem_cons_of_mem a (List.mem_of_mem_drop hx)))
            c hc
      · rcases List.mem_cons.mp hc with rfl | hc
        · exact h c (by simp)
        · exact ih rest (fun x hx => h x (List.mem_cons_of_mem a hx)) c hc

/-- Helper: stripping yields a subset of the original characters. -/
theorem mem_stripL {c : Char} {l : List Char} (h : c ∈ stripL l) : c ∈ l := by
  unfold stripL at h
  rw [List.mem_reverse] at h
  have h1 := (List.dropWhile_suffix (l := (l.dropWhile isWS).reverse) isWS).subset h
  rw [List.mem_reverse] at h1
  exact (List.dropWhile_suffix isWS).subset h1

/-- Helper: dropping a satisfied run twice is the same as dropping it once. -/
theorem dropWhile_dropWhile {α : Type} (p : α → Bool) (l : List α) :
    (l.dropWhile p).dropWhile p = l.dropWhile p := by
  cases h : l.dropWhile p with
  | nil => rfl
  | cons a t =>
    have hh := List.head?_dropWhile_not p l
    rw [h] at hh
    simp only [List.head?_cons] at hh
    simp [List.dropWhile_cons, hh]

/-- Helper: stripping both ends is idempotent. -/
theorem stripL_idem (l : List Char) : stripL (stripL l) = stripL l := by
  unfold stripL
  have hfront : ((((l.dropWhile isWS).reverse.dropWhile isWS).reverse).dropWhile
      isWS) = ((l.dropWhile isWS).reverse.dropWhile isWS).reverse := by
    cases hE : ((l.dropWhile isWS).reverse.dropWhile isWS).reverse with
    | nil => rfl
    | cons a t =>
      obtain ⟨s, hs⟩ := List.dropWhile_suffix
        (l := (l.dropWhile isWS).reverse) isWS
      have hm : l.dropWhile isWS =
          ((l.dropWhile isWS).reverse.dropWhile isWS).reverse ++ s.reverse := by
        have := congrArg List.reverse hs
        rw [List.reverse_append, List.reverse_reverse] at this
        exact this.symm
      have hhead : (l.dropWhile isWS).head? = some a := by
        rw [hm, hE]
        rfl
      have hh := List.head?_dropWhile_not isWS l
      rw [hhead] at hh
      simp only at hh
      rw [hE] at *
      simp [List.dropWhile_cons, hh]
  rw [hfront, List.reverse_reverse, dropWhile_dropWhile]

/-- Helper: stripping commutes with upper-casing, since upper-casing
preserves the whitespace class. -/
theorem stripL_map_upChar (l : List Char) :
    stripL (l.map upChar) = (stripL l).map upChar := by
  have hws : (isWS ∘ upChar) = isWS := by
    funext c
    exact isWS_upChar c
  unfold stripL
  rw [List.dropWhile_map, hws, ← List.map_reverse, List.dropWhile_map, hws,
    ← List.map_reverse]

/-- Helper: the strip-then-upper normal form reached inside
`standardize_quarter` is idempotent. -/
theorem norm_idem (q : String) :
    upStr (stripWS (upStr (stripWS q))) = upStr (stripWS q) := by
  show (⟨(stripL ((stripL q.data).map upChar)).map upChar⟩ : String) =
    ⟨(stripL q.data).map upChar⟩
  rw [stripL_map_upChar, stripL_idem, List.map_map]
  have : (upChar ∘ upChar) = upChar := by
    funext c
    exact upChar_idem c
  rw [this]

/-- Helper: `standardize_quarter` either returns a canonical label from the
token table, or passes its strip-and-upper normal form through with every
table test failing on it. -/
theorem std_cases (q : String) :
    standardize_quarter q = "Q1" ∨ standardize_quarter q = "Q2" ∨
    standardize_quarter q = "Q3" ∨ standardize_quarter q = "Q4" ∨
    (standardize_quarter q = upStr (stripWS q) ∧
      ¬(upStr (stripWS q) = "1" ∨ upStr (stripWS q) = "1ST" ∨
        upStr (stripWS q) = "FIRST") ∧
      ¬(upStr (stripWS q) = "2" ∨ upStr (stripWS q) = "2ND" ∨
        upStr (stripWS q) = "SECOND") ∧
      ¬(upStr (stripWS q) = "3" ∨ upStr (stripWS q) = "3RD" ∨
        upStr (stripWS q) = "THIRD") ∧
      ¬(upStr (stripWS q) = "4" ∨ upStr (stripWS q) = "4TH" ∨
        upStr (stripWS q) = "FOURTH")) := by
  unfold standardize_quarter
  dsimp only
  split_ifs with h1 h2 h3 h4 h5
  · exact Or.inl rfl
  · exact Or.inr (Or.inl rfl)
  · exact Or.inr (Or.inr (Or.inl rfl))
  · exact Or.inr (Or.inr (Or.inr (Or.inl rfl)))
  · exact Or.inr (Or.inr (Or.inr (Or.inr ⟨rfl, h1, h2, h3, h4⟩)))
  · exact Or.inr (Or.inr (Or.inr (Or.inr ⟨rfl, h1, h2, h3, h4⟩)))

/-- C8: the inner quarter canonicalization `standardize_quarter` is
idempotent on every input, and in particular fixes the already-canonical
label Q2. -/
theorem C8_canonicalization_idempotent :
    (∀ q, standardize_quarter (standardize_quarter q) = standardize_quarter q) ∧
    standardize_quarter "Q2" = "Q2" := by
  constructor
  · intro q
    rcases std_cases q with h | h | h | h | ⟨he, h1, h2, h3, h4⟩
    · rw [h]; decide
    · rw [h]; decide
    · rw [h]; decide
    · rw [h]; decide
    · rw [he]
      show standardize_quarter (upStr (stripWS q)) = upStr (stripWS q)
      unfold standardize_quarter
      dsimp only
      rw [norm_idem q, if_neg h1, if_neg h2, if_neg h3, if_neg h4, ite_self]
  · decide

/-- Helper: on a string whose characters are already upper-case-fixed,
`standardize_quarter` is exactly "strip, then apply the claim's mapping
table" — the function's internal re-upper-casing is a no-op. -/
theorem std_eq_table (t : String) (h : ∀ c ∈ t.data, upChar c = c) :
    standardize_quarter t = quarterTableClaim (stripWS t) := by
  have hfix : upStr (stripWS t) = stripWS t := by
    show (⟨(stripL t.data).map upChar⟩ : String) = ⟨stripL t.data⟩
    exact congrArg String.mk (map_upChar_fixed fun c hc => h c (mem_stripL hc))
  unfold standardize_quarter quarterTableClaim
  dsimp only
  rw [hfix]

/-- Helper: the pipeline-versus-amended-claim equality on one cell. -/
theorem quarterNormalize_eq_amended (s : String) :
    quarterNormalize s = quarterCanonAmended s := by
  unfold quarterNormalize quarterCanonAmended
  apply std_eq_table
  intro c hc
  have hc2 : c ∈ (replaceQuarterQ (upStr s)).data.filter (fun c => c != ' ') :=
    hc
  have hc3 : c ∈ replaceQtrAux (s.data.map upChar).length (s.data.map upChar) :=
    List.mem_of_mem_filter hc2
  refine replaceQtrAux_fixed _ _ ?_ c hc3
  intro x hx
  obtain ⟨y, _, rfl⟩ := List.mem_map.mp hx
  exact upChar_idem y

/-- C2 amended: the quarter pipeline equals upper-casing, then replacing the
literal word `QUARTER` with `Q`, then removing spaces and stripping the
remaining edge whitespace, then applying the claim's mapping table (the
claim holds once the replacement is put before the whitespace removal); and
afterwards every row whose final quarter value is not canonical is excluded
from the normalized dataset. -/
theorem C2_quarter_pipeline :
    (∀ s, quarterNormalize s = quarterCanonAmended s) ∧
    (∀ raws rows, preprocess_data raws = some rows →
      ∀ r ∈ rows, r.quarter ∈ validQuarters) :=
  ⟨quarterNormalize_eq_amended, preprocess_quarters_valid⟩

/-- C2 witness: the amended pipeline equality evaluated on the raw cell
"QUARTER 1", and a retained row with a canonical quarter. -/
theorem C2_quarter_pipeline_witness :
    quarterNormalize "QUARTER 1" = quarterCanonAmended "QUARTER 1" ∧
    (⟨"2020", "Q1", "ER", (5 : Int)⟩ : Row).quarter ∈ validQuarters :=
  ⟨C2_quarter_pipeline.1 "QUARTER 1",
   C2_quarter_pipeline.2 [⟨"2020", "Q1", "ER", "5"⟩] [⟨"2020", "Q1", "ER", 5⟩]
     (by decide) ⟨"2020", "Q1", "ER", 5⟩ (by decide)⟩
